import Mathlib

/-!
Shallow embedding of the timing / flow / color / distortion core of the
disclose-dsl repository.  JavaScript numbers are modelled as rationals
(`ℚ`), with the single NaN-producing corner (`parseInt` on non-digits,
`Number` on non-numeric strings) modelled as `Option ℚ` where `none`
stands for NaN.  Strings are modelled as `List Char`.
-/

/-- Easing selector, from the `EaseSpec` union in the source: one of the
four named easings or a custom cubic-bezier record `{x1,y1,x2,y2}`. -/
inductive EaseSpec where
  | linear
  | easeIn
  | easeOut
  | easeInOut
  | bezier (x1 y1 x2 y2 : ℚ)
deriving DecidableEq

/-- Embeds `cubicBezier` from the source: evaluates the bezier y-component
directly at parameter `t` (control x-values received but unused). -/
def cubicBezier (x1 y1 x2 y2 t : ℚ) : ℚ :=
  let u := 1 - t
  let tt := t * t
  let uu := u * u
  let uuu := uu * u
  let ttt := tt * t
  uuu * 0 + 3 * uu * t * y1 + 3 * u * tt * y2 + ttt * 1

/-- Embeds `applyEase` from the source; a missing ease (`undefined` in JS) is
`none` and behaves like `linear`. -/
def applyEase (t : ℚ) (ease : Option EaseSpec) : ℚ :=
  match ease with
  | none => t
  | some .linear => t
  | some .easeIn => t * t
  | some .easeOut => 1 - (1 - t) * (1 - t)
  | some .easeInOut => if t < 1/2 then 2 * t * t else 1 - (-2 * t + 2) ^ 2 / 2
  | some (.bezier x1 y1 x2 y2) => cubicBezier x1 y1 x2 y2 t

/-- JavaScript `%` for the operands the source feeds it.  JS `%`
truncates toward zero; for a nonnegative dividend and positive divisor
that coincides with this floor formula, and `phase` /
`localTimeForKeyframes` only evaluate `%` with `local > 0` and
`cycle > 0`. -/
def jsMod (a b : ℚ) : ℚ := a - b * (⌊a / b⌋ : ℚ)

/-- Embeds `phase` from the source (src/unnamed/part_004, lines 548-570),
argument for argument.  Note the source checks `duration <= 0` before
computing `local`. -/
def phase (time duration : ℚ) (loop : Bool) (start delay repeatDelay : ℚ)
    (ease : Option EaseSpec) (stagger index : ℚ) : ℚ :=
  if duration ≤ 0 then 1
  else
    let loc := time - start - delay - index * stagger
    if loc ≤ 0 then 0
    else if loop then
      let cycle := duration + repeatDelay
      let inCycle := if 0 < cycle then jsMod loc cycle else loc
      if duration < inCycle then 1 else applyEase (inCycle / duration) ease
    else
      let t := loc / duration
      applyEase (if 1 < t then 1 else t) ease

/-- Embeds `lerp` from the source. -/
def lerp (a b t : ℚ) : ℚ := a + (b - a) * t

/-- The loop arm of `phase` as the spec sentence behind claim C5 words
it — "cycle = duration + repeatDelay (clamp negative cycle to
duration)" — written only to compare against the code's `phase`. -/
def phaseClaimLoop (time duration start delay repeatDelay : ℚ)
    (ease : Option EaseSpec) (stagger index : ℚ) : ℚ :=
  let loc := time - start - delay - index * stagger
  if loc ≤ 0 then 0
  else if duration ≤ 0 then 1
  else
    let cycle0 := duration + repeatDelay
    let cycle := if cycle0 < 0 then duration else cycle0
    let inCycle := if 0 < cycle then jsMod loc cycle else loc
    if duration < inCycle then 1 else applyEase (inCycle / duration) ease

/-- The easing is one of the four named easings (or absent, which the
source treats as `linear`). -/
def IsNamedEase (e : Option EaseSpec) : Prop :=
  e = none ∨ e = some .linear ∨ e = some .easeIn ∨
    e = some .easeOut ∨ e = some .easeInOut

/-- A keyframe entry `{time, value}` over numeric values. -/
structure Keyframe where
  time : ℚ
  value : ℚ
deriving DecidableEq

/-- Default used only to totalize out-of-range list accesses; the source
indexes `keyframes[0]` directly, an empty list being a caller contract
violation per the spec (§7). -/
def kfDefault : Keyframe := ⟨0, 0⟩

/-- The fields of a timing spec consulted by `durationOf` and the
keyframe helpers; absent optional fields are `none`. -/
structure AnimSpec where
  duration : Option ℚ
  loop : Bool
  delay : Option ℚ
  repeatDelay : Option ℚ
  ease : Option EaseSpec
  keyframes : List Keyframe

/-- Embeds `durationOf` from the source: the last keyframe's time backs an
absent `duration` when keyframes are present, else 0. -/
def durationOf (spec : AnimSpec) : ℚ :=
  match spec.keyframes.getLast? with
  | some last => spec.duration.getD last.time
  | none => spec.duration.getD 0

/-- Embeds `localTimeForKeyframes` from the source.  The source's early
`return duration` inside the loop arm and the final
`local > duration ? duration : local` clamp coincide, so the two are
folded into the single final clamp. -/
def localTimeForKeyframes (time : ℚ) (spec : AnimSpec) (start index stagger : ℚ) : ℚ :=
  let dl := spec.delay.getD 0
  let loc := time - start - dl - index * stagger
  if loc ≤ 0 then 0
  else
    let duration := durationOf spec
    let loc2 :=
      if spec.loop then
        let cycle := duration + spec.repeatDelay.getD 0
        if 0 < cycle then jsMod loc cycle else loc
      else loc
    if duration < loc2 then duration else loc2

/-- The scan loop inside `segmentForKeyframes`: `a` is the keyframe
before the cursor, the list holds the remaining keyframes. -/
def segGo (loc : ℚ) (a : Keyframe) : List Keyframe → Keyframe × Keyframe × ℚ
  | [] => (a, a, 1)
  | b :: rest =>
    if loc ≤ b.time then
      (a, b, if b.time - a.time ≤ 0 then 1 else (loc - a.time) / (b.time - a.time))
    else segGo loc b rest

/-- Embeds `segmentForKeyframes` from the source: bracketing segment and the
raw (uneased) parameter inside it. -/
def segmentForKeyframes (loc : ℚ) (kfs : List Keyframe) : Keyframe × Keyframe × ℚ :=
  match kfs with
  | [] => (kfDefault, kfDefault, 0)
  | k :: rest => if loc ≤ k.time then (k, k, 0) else segGo loc k rest

/-- The body of `keyframeNumber` after its local time has been
computed: single-keyframe short circuit, then segment lookup, easing
and `lerp`. -/
def keyframeNumberAt (loc : ℚ) (kfs : List Keyframe) (ease : Option EaseSpec) : ℚ :=
  if kfs.length = 1 then (kfs.headD kfDefault).value
  else
    let s := segmentForKeyframes loc kfs
    lerp s.1.value s.2.1.value (applyEase s.2.2 ease)

/-- Embeds `keyframeNumber` from the source, factored through
`keyframeNumberAt`. -/
def keyframeNumber (time : ℚ) (kfs : List Keyframe) (spec : AnimSpec)
    (start index stagger : ℚ) : ℚ :=
  keyframeNumberAt (localTimeForKeyframes time spec start index stagger) kfs spec.ease

/-- Embeds `ShapeLike` from src/dsl/Flow.ts: a leaf shape builder, an array of
builders, or a thunk producing further items (the runtime re-dispatches
whatever a thunk returns, so its payload is again a `ShapeLike`).  The
leaf type is abstract (`α`): `ShapeBuilder` lives in src/dsl/Shape.ts,
which is not among the provided sources. -/
inductive ShapeLike (α : Type) where
  | leaf (b : α)
  | arr (bs : List α)
  | thunk (built : ShapeLike α)

/-- One item's contribution in `flattenItems` (the loop body): thunks
are invoked and re-flattened, arrays evaluate each builder, leaves are
evaluated directly.  `ev` abstracts `ShapeBuilder.evaluate` (also in
the absent src/dsl/Shape.ts); `β` is the `ShapeInstance` type.  The
`off` argument is threaded exactly as in the source, which never reads
it. -/
def flattenOne {α β : Type} (ev : α → ℚ → List β) :
    ShapeLike α → ℚ → ℚ → List β
  | .leaf b, time, _ => ev b time
  | .arr bs, time, _ => (bs.map (fun b => ev b time)).join
  | .thunk built, time, off => flattenOne ev built time off

/-- Embeds `flattenItems` from src/dsl/Flow.ts: concatenation of the items'
contributions in input order. -/
def flattenItems {α β : Type} (ev : α → ℚ → List β)
    (items : List (ShapeLike α)) (time off : ℚ) : List β :=
  (items.map (fun it => flattenOne ev it time off)).join

/-- Embeds `durationOfItem` from src/dsl/Flow.ts; `dur` abstracts
`estimateDuration` (src/dsl/Shape.ts, absent from the sources). -/
def durationOfItem {α : Type} (dur : α → ℚ) : ShapeLike α → ℚ
  | .thunk built => durationOfItem dur built
  | .arr bs => bs.foldl (fun acc b => max acc (dur b)) 0
  | .leaf b => dur b

/-- The `SequenceGroup` constructor loop from src/dsl/Flow.ts: each
entry receives the running cursor as its offset and the cursor advances
by the item's estimated duration. -/
def seqEntries {α : Type} (dur : α → ℚ) :
    List (ShapeLike α) → ℚ → List (ℚ × ShapeLike α)
  | [], _ => []
  | it :: rest, cursor =>
    (cursor, it) :: seqEntries dur rest (cursor + durationOfItem dur it)

/-- Embeds `SequenceGroup.evaluate` from src/dsl/Flow.ts: entries with
`time < offset` contribute nothing; the rest are flattened at local
time `time - offset`. -/
def seqEvaluate {α β : Type} (ev : α → ℚ → List β) (dur : α → ℚ)
    (items : List (ShapeLike α)) (time : ℚ) : List β :=
  ((seqEntries dur items 0).map
      (fun entry => if time < entry.1 then [] else
        flattenItems ev [entry.2] (time - entry.1) entry.1)).join

/-- JS `\s` over the characters these claims exercise (ASCII
whitespace; the rare Unicode space classes JS also matches are
immaterial here). -/
def isJsSpace (c : Char) : Bool :=
  c = ' ' || c = '\t' || c = '\n' || c = '\r' || c.toNat = 11 || c.toNat = 12

/-- Embeds `start.replace(/\s+/g, '')` — removes every whitespace character. -/
def stripWs (s : List Char) : List Char := s.filter (fun c => !isJsSpace c)

/-- Embeds `TimeRef` from the source: an absolute number or a symbolic
string. -/
inductive TimeRef where
  | num (n : ℚ)
  | str (s : List Char)

def sceneKey : List Char := ['s', 'c', 'e', 'n', 'e']

def prevEndKey : List Char := ['p', 'r', 'e', 'v', '.', 'e', 'n', 'd']

/-- Decimal value of a digit run. -/
def digitsVal (l : List Char) : ℚ :=
  l.foldl (fun acc c => acc * 10 + ((c.toNat : ℚ) - 48)) 0

/-- Recognizer for the regex fragment `\d+(\.\d+)?`. -/
def numTail (l : List Char) : Bool :=
  let ds := l.takeWhile Char.isDigit
  let rest := l.dropWhile Char.isDigit
  !ds.isEmpty &&
    (rest.isEmpty ||
      (match rest with
       | '.' :: fs => !fs.isEmpty && fs.all Char.isDigit
       | _ => false))

/-- Recognizer for the offset grammar `^[+-]\d+(\.\d+)?$`; the code's
regex and the spec's grammar are the same pattern. -/
def matchesSignedNumeral (l : List Char) : Bool :=
  match l with
  | c :: rest => (c = '+' || c = '-') && numTail rest
  | [] => false

/-- Evaluates `Number(...)` on a string matching the offset grammar: exact signed
decimal value. -/
def signedNumeralVal (l : List Char) : ℚ :=
  match l with
  | c :: rest =>
    let sign : ℚ := if c = '-' then -1 else 1
    let ip := rest.takeWhile Char.isDigit
    let rest2 := rest.dropWhile Char.isDigit
    let fv : ℚ :=
      match rest2 with
      | '.' :: fs => digitsVal fs / (10 : ℚ) ^ fs.length
      | _ => 0
    sign * (digitsVal ip + fv)
  | [] => 0

/-- Embeds `parseOffset` from src/dsl/Flow.ts (duplicated verbatim in the
renderer module, src/unnamed/part_004). -/
def parseOffset (base : ℚ) (offset : List Char) : ℚ :=
  if offset.isEmpty then base
  else if matchesSignedNumeral offset then base + signedNumeralVal offset
  else base

/-- Embeds `resolveStart` from src/dsl/Flow.ts (duplicated verbatim in the
renderer module); `none` models an `undefined` start. -/
def resolveStart (start : Option TimeRef) (prevEnd : ℚ) : ℚ :=
  match start with
  | none => 0
  | some (.num n) => n
  | some (.str s0) =>
    let s := stripWs s0
    if List.isPrefixOf sceneKey s then
      parseOffset 0 (s.drop sceneKey.length)
    else if List.isPrefixOf prevEndKey s then
      parseOffset prevEnd (s.drop prevEndKey.length)
    else 0

/-- JS `String.prototype.trim`. -/
def jsTrim (s : List Char) : List Char :=
  ((s.dropWhile isJsSpace).reverse.dropWhile isJsSpace).reverse

/-- ASCII `toLowerCase`. -/
def toLowerStr (s : List Char) : List Char := s.map Char.toLower

/-- A parsed color; a channel is `none` when the JS computation
produced NaN (`parseInt` finding no digits, `Number` applied to a
non-numeric capture). -/
structure ColorRGB where
  r : Option ℚ
  g : Option ℚ
  b : Option ℚ
deriving DecidableEq

/-- The fixed named palette from `parseColor`. -/
def namedColor (s : List Char) : Option (ℚ × ℚ × ℚ) :=
  if s = "red".toList then some (255, 0, 0)
  else if s = "blue".toList then some (0, 0, 255)
  else if s = "green".toList then some (0, 128, 0)
  else if s = "black".toList then some (0, 0, 0)
  else if s = "white".toList then some (255, 255, 255)
  else if s = "yellow".toList then some (255, 255, 0)
  else if s = "cyan".toList then some (0, 255, 255)
  else if s = "magenta".toList then some (255, 0, 255)
  else if s = "gray".toList then some (128, 128, 128)
  else none

def hexDigitVal (c : Char) : Option Nat :=
  if '0' ≤ c ∧ c ≤ '9' then some (c.toNat - 48)
  else if 'a' ≤ c ∧ c ≤ 'f' then some (c.toNat - 87)
  else if 'A' ≤ c ∧ c ≤ 'F' then some (c.toNat - 55)
  else none

def isHexDigitChar (c : Char) : Bool := (hexDigitVal c).isSome

/-- JS `parseInt(str, 16)`: skip whitespace, optional sign, optional
`0x`/`0X`, then the longest hex-digit run; no digits ⇒ NaN (`none`). -/
def jsParseIntHex (l : List Char) : Option ℚ :=
  let l1 := l.dropWhile isJsSpace
  let sr : ℚ × List Char :=
    match l1 with
    | '+' :: r => (1, r)
    | '-' :: r => (-1, r)
    | _ => (1, l1)
  let body : List Char :=
    match sr.2 with
    | '0' :: 'x' :: r2 => r2
    | '0' :: 'X' :: r2 => r2
    | r2 => r2
  let ds := body.takeWhile isHexDigitChar
  if ds.isEmpty then none
  else
    some (sr.1 *
      ds.foldl (fun acc c => acc * 16 + (((hexDigitVal c).getD 0 : ℕ) : ℚ)) 0)

/-- Consume a nonempty run of the fixed character `c`, returning the
rest of the list. -/
def chRun (c : Char) (l : List Char) : Option (List Char) :=
  match l with
  | c2 :: rest => if c2 = c then some (rest.dropWhile (fun x => x = c)) else none
  | [] => none

/-- Tail matcher for the source's rgb regex.  The regex literal is
double-escaped (`/rgb\\((\\d+),\\s*(\\d+),\\s*(\\d+)\\)/`, raw bytes
confirmed against the file), so `\\(` matches a literal backslash and
then opens a group, `\\d+` matches a literal backslash followed by a
run of the letter `d`, and `\\s*` a backslash followed by a run of the
letter `s`: the text accepted after `rgb` is
`\` `\` `d+` `,` `\` `s*` `\` `d+` `,` `\` `s*` `\` `d+` `\`. -/
def matchDoubledRgbTail (l : List Char) : Bool :=
  match l with
  | '\x5c' :: '\x5c' :: r1 =>
    (match chRun 'd' r1 with
     | some (',' :: '\x5c' :: r2) =>
       (match r2.dropWhile (fun x => x = 's') with
        | '\x5c' :: r3 =>
          (match chRun 'd' r3 with
           | some (',' :: '\x5c' :: r4) =>
             (match r4.dropWhile (fun x => x = 's') with
              | '\x5c' :: r5 =>
                (match chRun 'd' r5 with
                 | some ('\x5c' :: _) => true
                 | _ => false)
              | _ => false)
           | _ => false)
        | _ => false)
     | _ => false)
  | _ => false

def matchDoubledRgbAt (l : List Char) : Bool :=
  match l with
  | 'r' :: 'g' :: 'b' :: rest => matchDoubledRgbTail rest
  | _ => false

/-- Whole-string search: `s.match(regex)` matches anywhere in the string. -/
def containsDoubledRgb (s : List Char) : Bool :=
  s.tails.any matchDoubledRgbAt

/-- Embeds `parseColor` from the source.  In the rgb branch, `Number` applied
to any of the regex captures is NaN because every captured group starts
with a backslash, so a (degenerate) match yields all-NaN channels. -/
def parseColor (input : List Char) : Option ColorRGB :=
  let s := toLowerStr (jsTrim input)
  match namedColor s with
  | some t => some ⟨some t.1, some t.2.1, some t.2.2⟩
  | none =>
    match s with
    | '#' :: hex =>
      if hex.length = 3 then
        some ⟨jsParseIntHex [hex.getD 0 ' ', hex.getD 0 ' '],
              jsParseIntHex [hex.getD 1 ' ', hex.getD 1 ' '],
              jsParseIntHex [hex.getD 2 ' ', hex.getD 2 ' ']⟩
      else if hex.length = 6 then
        some ⟨jsParseIntHex (hex.take 2),
              jsParseIntHex ((hex.drop 2).take 2),
              jsParseIntHex ((hex.drop 4).take 2)⟩
      else if containsDoubledRgb s then some ⟨none, none, none⟩
      else none
    | _ => if containsDoubledRgb s then some ⟨none, none, none⟩ else none

/-- Channel interpolation with NaN propagation. -/
def lerpChannel (a b : Option ℚ) (t : ℚ) : Option ℚ :=
  match a, b with
  | some av, some bv => some (lerp av bv t)
  | _, _ => none

/-- JS `Math.round`: half toward positive infinity; NaN propagates. -/
def jsRound (x : Option ℚ) : Option ℤ :=
  x.map (fun q => ⌊q + 1/2⌋)

/-- Rendering of one channel in the `rgb(r, g, b)` template; a NaN
channel renders as `NaN`. -/
def chanStr (x : Option ℤ) : List Char :=
  match x with
  | none => "NaN".toList
  | some n => (toString n).toList

/-- Embeds `lerpColor` from the source. -/
def lerpColor (a b : List Char) (t : ℚ) : List Char :=
  match parseColor a, parseColor b with
  | some ca, some cb =>
    "rgb(".toList ++ chanStr (jsRound (lerpChannel ca.r cb.r t)) ++
      ", ".toList ++ chanStr (jsRound (lerpChannel ca.g cb.g t)) ++
      ", ".toList ++ chanStr (jsRound (lerpChannel ca.b cb.b t)) ++
      ")".toList
  | _, _ => a

/-- Consume a nonempty decimal digit run, returning the rest. -/
def digitRun (l : List Char) : Option (List Char) :=
  match l with
  | c :: _ => if c.isDigit then some (l.dropWhile Char.isDigit) else none
  | [] => none

/-- The spec's rgb text form `rgb(r,g,b)` (the single-escaped regex
`/rgb\((\d+),\s*(\d+),\s*(\d+)\)/`), matched at the head of the list. -/
def specRgbTextAt (l : List Char) : Bool :=
  match l with
  | 'r' :: 'g' :: 'b' :: '(' :: r1 =>
    (match digitRun r1 with
     | some (',' :: r2) =>
       (match digitRun (r2.dropWhile isJsSpace) with
        | some (',' :: r3) =>
          (match digitRun (r3.dropWhile isJsSpace) with
           | some (')' :: _) => true
           | _ => false)
        | _ => false)
     | _ => false)
  | _ => false

/-- The spec's three accepted color forms (§4.2): palette name,
`#rgb`/`#rrggbb` hex with hex digits, or `rgb(r,g,b)` text found
anywhere in the string. -/
def specColorForm (input : List Char) : Bool :=
  let s := toLowerStr (jsTrim input)
  (namedColor s).isSome ||
    (match s with
     | '#' :: hex => (hex.length = 3 || hex.length = 6) && hex.all isHexDigitChar
     | _ => false) ||
    s.tails.any specRgbTextAt

/-- A 2D point. -/
structure Vec2 where
  x : ℚ
  y : ℚ
deriving DecidableEq

/-- The slice of `ShapeInstance` the distortion claim observes. -/
structure ShapeInst where
  kind : List Char
  points : List Vec2
  closed : Bool
deriving DecidableEq

/-- Modelled from the spec: the rect-to-corner conversion used by the
distort modifier lives in src/dsl/Shape.ts, which is not among the
provided sources; §4.6 step 1 gives the four corners `[tl,tr,br,bl]` in
local, center-origin coordinates. -/
def rectCorners (w h : ℚ) : List Vec2 :=
  [⟨-(w/2), -(h/2)⟩, ⟨w/2, -(h/2)⟩, ⟨w/2, h/2⟩, ⟨-(w/2), h/2⟩]

def minXOf (pts : List Vec2) : ℚ :=
  pts.foldl (fun m p => min m p.x) (pts.headD ⟨0, 0⟩).x

def maxXOf (pts : List Vec2) : ℚ :=
  pts.foldl (fun m p => max m p.x) (pts.headD ⟨0, 0⟩).x

def minYOf (pts : List Vec2) : ℚ :=
  pts.foldl (fun m p => min m p.y) (pts.headD ⟨0, 0⟩).y

def maxYOf (pts : List Vec2) : ℚ :=
  pts.foldl (fun m p => max m p.y) (pts.headD ⟨0, 0⟩).y

/-- Modelled from the spec: §4.6 steps 3-5 — normalized bounding-box
coordinates (degenerate axis ⇒ 0), bilinear corner weights, displaced
point. -/
def distortPoint (minX maxX minY maxY : ℚ) (tl tr br bl : Vec2)
    (p : Vec2) : Vec2 :=
  let u := if maxX - minX = 0 then 0 else (p.x - minX) / (maxX - minX)
  let v := if maxY - minY = 0 then 0 else (p.y - minY) / (maxY - minY)
  let wtl := (1 - u) * (1 - v)
  let wtr := u * (1 - v)
  let wbr := u * v
  let wbl := (1 - u) * v
  ⟨p.x + (wtl * tl.x + wtr * tr.x + wbr * br.x + wbl * bl.x),
   p.y + (wtl * tl.y + wtr * tr.y + wbr * br.y + wbl * bl.y)⟩

/-- Modelled from the spec: §4.6 steps 2-5 applied to a point list. -/
def distortPoints (pts : List Vec2) (tl tr br bl : Vec2) : List Vec2 :=
  pts.map (distortPoint (minXOf pts) (maxXOf pts) (minYOf pts) (maxYOf pts)
    tl tr br bl)

/-- Modelled from the spec: `Rect(w,h).distort(corners).evaluate(t)`
for a rect carrying no other modifiers — §4.6 steps 1-6: corner list,
bilinear displacement, result re-tagged as a single closed `path`
instance; unspecified corners displace by `{0,0}`.  The implementation
lives in src/dsl/Shape.ts, absent from the sources; the behaviour is
pinned by §4.6 and the distort test fixture. -/
def rectDistortEvaluate (w h : ℚ) (tl tr br bl : Vec2) (time : ℚ) :
    List ShapeInst :=
  [⟨"path".toList, distortPoints (rectCorners w h) tl tr br bl, true⟩]


theorem applyEase_one (e : Option EaseSpec) : applyEase 1 e = 1 := by
  match e with
  | none => rfl
  | some .linear => rfl
  | some .easeIn => norm_num [applyEase]
  | some .easeOut => norm_num [applyEase]
  | some .easeInOut => norm_num [applyEase]
  | some (.bezier x1 y1 x2 y2) =>
      simp only [applyEase, cubicBezier]
      norm_num

/-- C1 counterexample: with `duration = 0 ≤ 0` and
`time = -1 < 0 + 0 = start + delay`, `phase` returns `1`, not `0`:
the source tests `duration <= 0` before the not-yet-started test. -/
theorem phase_before_start_counterexample :
    ((-1 : ℚ) < 0 + 0) ∧ phase (-1) 0 false 0 0 0 none 0 0 = 1 := by
  constructor
  · norm_num
  · rfl

/-- C1 (amended): for every timing spec with `duration > 0` and every
time with `time < start + delay` (index and stagger taken as 0),
`phase` returns 0; when `duration ≤ 0` it returns 1 regardless of the
evaluation time. -/
theorem phase_before_start (time d : ℚ) (loop : Bool) (s dl rd : ℚ)
    (e : Option EaseSpec) :
    (0 < d → time < s + dl → phase time d loop s dl rd e 0 0 = 0) ∧
    (d ≤ 0 → phase time d loop s dl rd e 0 0 = 1) := by
  constructor
  · intro hd ht
    have h1 : ¬ (d ≤ 0) := not_le.mpr hd
    have h2 : time - s - dl - (0 : ℚ) * 0 ≤ 0 := by linarith
    simp only [phase, h1, if_false, if_neg h1, if_pos h2]
  · intro hd
    simp only [phase, if_pos hd]

/-- Witness for `phase_before_start` at concrete inputs. -/
theorem phase_before_start_witness :
    phase (-1) 5 false 0 0 0 none 0 0 = 0 ∧
      phase 3 0 true 1 1 0 none 0 0 = 1 :=
  ⟨(phase_before_start (-1) 5 false 0 0 0 none).1 (by norm_num) (by norm_num),
   (phase_before_start 3 0 true 1 1 0 none).2 (by norm_num)⟩

theorem applyEase_nonneg_named (e : Option EaseSpec) (h : IsNamedEase e)
    {t : ℚ} (h0 : 0 ≤ t) (h1 : t ≤ 1) : 0 ≤ applyEase t e := by
  rcases h with h | h | h | h | h <;> subst h <;> simp only [applyEase]
  · exact h0
  · exact h0
  · positivity
  · nlinarith
  · split_ifs with hc
    · positivity
    · nlinarith

theorem applyEase_mono_named (e : Option EaseSpec) (h : IsNamedEase e)
    {a b : ℚ} (h0 : 0 ≤ a) (hab : a ≤ b) (h1 : b ≤ 1) :
    applyEase a e ≤ applyEase b e := by
  rcases h with h | h | h | h | h <;> subst h <;> simp only [applyEase]
  · exact hab
  · exact hab
  · nlinarith
  · nlinarith
  · split_ifs with ha hb hb
    · nlinarith
    · nlinarith
    · exact absurd (lt_of_le_of_lt hab hb) (fun hx => ha hx)
    · nlinarith

/-- C5 counterexample: with `duration = 10`, `repeatDelay = -20`
(`repeatDelay < -duration`) and evaluation time 15, the code's `phase`
returns 1 while the claimed clamp-negative-cycle-to-duration semantics
gives `ease(5/10) = 1/2`. -/
theorem phase_loop_clamp_counterexample :
    phase 15 10 true 0 0 (-20) none 0 0 ≠
      phaseClaimLoop 15 10 0 0 (-20) none 0 0 := by
  have h1 : phase 15 10 true 0 0 (-20) none 0 0 = 1 := by
    norm_num [phase, applyEase]
  have h2 : phaseClaimLoop 15 10 0 0 (-20) none 0 0 = 1/2 := by
    norm_num [phaseClaimLoop, jsMod, applyEase]
  rw [h1, h2]; norm_num

/-- C5 (amended): in the loop branch the cycle is
`duration + repeatDelay` and is never clamped: when the cycle is
positive, local time past `duration` inside the cycle returns 1 (the
repeat gap holds the value) and otherwise progress is
`ease(inCycle/duration)`; when the cycle is nonpositive
(`repeatDelay ≤ -duration`) no wrap occurs at all and the looping phase
coincides with the non-looping phase. -/
theorem phase_loop_cycle (time d s dl rd st idx : ℚ) (e : Option EaseSpec) :
    (d + rd ≤ 0 → phase time d true s dl rd e st idx
        = phase time d false s dl rd e st idx) ∧
    (0 < d → 0 < d + rd → 0 < time - s - dl - idx * st →
      d < jsMod (time - s - dl - idx * st) (d + rd) →
      phase time d true s dl rd e st idx = 1) ∧
    (0 < d → 0 < d + rd → 0 < time - s - dl - idx * st →
      jsMod (time - s - dl - idx * st) (d + rd) ≤ d →
      phase time d true s dl rd e st idx
        = applyEase (jsMod (time - s - dl - idx * st) (d + rd) / d) e) := by
  refine ⟨?_, ?_, ?_⟩
  · intro hc
    by_cases hd : d ≤ 0
    · simp only [phase, if_pos hd]
    · have hd' : 0 < d := lt_of_not_le hd
      by_cases hl : time - s - dl - idx * st ≤ 0
      · simp only [phase, if_neg hd, if_pos hl]
      · have hl' : 0 < time - s - dl - idx * st := lt_of_not_le hl
        have hcy : ¬ (0 < d + rd) := not_lt.mpr hc
        simp only [phase, if_neg hd, if_neg hl, if_true, Bool.false_eq_true,
          if_false, if_neg hcy]
        by_cases hgt : d < time - s - dl - idx * st
        · have ht : 1 < (time - s - dl - idx * st) / d :=
            (one_lt_div hd').mpr hgt
          rw [if_pos hgt, if_pos ht, applyEase_one]
        · have ht : ¬ (1 < (time - s - dl - idx * st) / d) := by
            rw [not_lt, div_le_one hd']
            exact not_lt.mp hgt
          rw [if_neg hgt, if_neg ht]
  · intro hd hc hl hin
    have hd' : ¬ (d ≤ 0) := not_le.mpr hd
    have hl' : ¬ (time - s - dl - idx * st ≤ 0) := not_le.mpr hl
    simp only [phase, if_neg hd', if_neg hl', if_true, if_pos hc, if_pos hin]
  · intro hd hc hl hin
    have hd' : ¬ (d ≤ 0) := not_le.mpr hd
    have hl' : ¬ (time - s - dl - idx * st ≤ 0) := not_le.mpr hl
    have hin' : ¬ (d < jsMod (time - s - dl - idx * st) (d + rd)) :=
      not_lt.mpr hin
    simp only [phase, if_neg hd', if_neg hl', if_true, if_pos hc, if_neg hin']

/-- Witness for `phase_loop_cycle` at concrete inputs. -/
theorem phase_loop_cycle_witness :
    phase 15 10 true 0 0 (-20) none 0 0 = phase 15 10 false 0 0 (-20) none 0 0 ∧
      phase 26 10 true 0 0 5 none 0 0 = 1 :=
  ⟨(phase_loop_cycle 15 10 0 0 (-20) 0 0 none).1 (by norm_num),
   (phase_loop_cycle 26 10 0 0 5 0 0 none).2.1 (by norm_num) (by norm_num)
     (by norm_num) (by norm_num [jsMod])⟩

/-- C7 counterexample: with the custom cubic-bezier easing
`{x1 := 0, y1 := 2, x2 := 0, y2 := 0}` and times `3/10 ≤ 1/2` inside one
non-looping cycle of duration 1, `phase` decreases
(`909/1000 > 875/1000`). -/
theorem phase_monotone_counterexample :
    ((3/10 : ℚ) ≤ 1/2) ∧
      ¬ (phase (3/10) 1 false 0 0 0 (some (.bezier 0 2 0 0)) 0 0 ≤
          phase (1/2) 1 false 0 0 0 (some (.bezier 0 2 0 0)) 0 0) := by
  have h1 : phase (3/10) 1 false 0 0 0 (some (.bezier 0 2 0 0)) 0 0
      = 909/1000 := by
    norm_num [phase, applyEase, cubicBezier]
  have h2 : phase (1/2) 1 false 0 0 0 (some (.bezier 0 2 0 0)) 0 0
      = 7/8 := by
    norm_num [phase, applyEase, cubicBezier]
  rw [h1, h2]
  norm_num

/-- C7 (amended): for every non-looping timing spec and every *named*
easing (`linear`, `easeIn`, `easeOut`, `easeInOut`, or absent), `phase`
is monotonically non-decreasing in time; the custom cubic-bezier easing
is excluded because its y-polynomial need not be monotone. -/
theorem phase_monotone_named (t1 t2 d s dl rd st idx : ℚ)
    (e : Option EaseSpec) (he : IsNamedEase e) (ht : t1 ≤ t2) :
    phase t1 d false s dl rd e st idx ≤ phase t2 d false s dl rd e st idx := by
  by_cases hd : d ≤ 0
  · simp only [phase, if_pos hd, le_refl]
  · have hd' : 0 < d := lt_of_not_le hd
    have hloc : t1 - s - dl - idx * st ≤ t2 - s - dl - idx * st := by linarith
    by_cases h1 : t1 - s - dl - idx * st ≤ 0
    · by_cases h2 : t2 - s - dl - idx * st ≤ 0
      · simp only [phase, if_neg hd, if_pos h1, if_pos h2, le_refl]
      · have h2' : 0 < t2 - s - dl - idx * st := lt_of_not_le h2
        simp only [phase, if_neg hd, if_pos h1, if_neg h2, Bool.false_eq_true,
          if_false]
        apply applyEase_nonneg_named e he
        · split_ifs with hgt
          · norm_num
          · positivity
        · split_ifs with hgt
          · norm_num
          · rw [div_le_one hd']
            exact le_of_not_lt (fun hx => hgt ((one_lt_div hd').mpr hx))
    · have h1' : 0 < t1 - s - dl - idx * st := lt_of_not_le h1
      have h2 : ¬ (t2 - s - dl - idx * st ≤ 0) := by
        intro hx; exact h1 (le_trans hloc hx)
      simp only [phase, if_neg hd, if_neg h1, if_neg h2, Bool.false_eq_true,
        if_false]
      have hdiv : (t1 - s - dl - idx * st) / d ≤ (t2 - s - dl - idx * st) / d := by
        gcongr
      apply applyEase_mono_named e he
      · split_ifs with hgt
        · norm_num
        · positivity
      · split_ifs with hgt hgt2 hgt2
        · norm_num
        · exact absurd (lt_of_lt_of_le hgt hdiv) hgt2
        · exact le_of_not_lt hgt
        · exact hdiv
      · split_ifs with hgt
        · norm_num
        · rw [div_le_one hd']
          exact le_of_not_lt (fun hx => hgt ((one_lt_div hd').mpr hx))

/-- Witness for `phase_monotone_named` at concrete inputs. -/
theorem phase_monotone_named_witness :
    phase 1 1 false 0 0 0 none 0 0 ≤ phase 2 1 false 0 0 0 none 0 0 :=
  phase_monotone_named 1 2 1 0 0 0 0 0 none (Or.inl rfl) (by norm_num)

theorem lerp_self (a t : ℚ) : lerp a a t = a := by
  simp [lerp]

theorem lerp_one (a b : ℚ) : lerp a b 1 = b := by
  simp only [lerp]; ring

theorem time_le_getLastD (rest : List Keyframe) :
    ∀ b : Keyframe,
      List.Pairwise (fun x y : Keyframe => x.time < y.time) (b :: rest) →
      b.time ≤ (rest.getLastD b).time := by
  induction rest with
  | nil => intro b _; exact le_refl _
  | cons c r2 ih =>
    intro b hp
    rw [List.getLastD_cons]
    have hbc : b.time < c.time :=
      (List.pairwise_cons.mp hp).1 c (List.mem_cons_self c r2)
    exact le_trans (le_of_lt hbc) (ih c (List.pairwise_cons.mp hp).2)

theorem segGo_hit (e : Option EaseSpec) (l : List Keyframe) :
    ∀ a kf : Keyframe,
      List.Pairwise (fun x y : Keyframe => x.time < y.time) (a :: l) →
      kf ∈ l →
      lerp (segGo kf.time a l).1.value (segGo kf.time a l).2.1.value
          (applyEase (segGo kf.time a l).2.2 e) = kf.value := by
  induction l with
  | nil => intro a kf _ hm; cases hm
  | cons b rest ih =>
    intro a kf hp hm
    have hab : a.time < b.time :=
      (List.pairwise_cons.mp hp).1 b (List.mem_cons_self b rest)
    rcases List.mem_cons.mp hm with rfl | hm'
    · have hspan : ¬ (kf.time - a.time ≤ 0) := by linarith
      have hne : kf.time - a.time ≠ 0 := sub_ne_zero.mpr (ne_of_gt hab)
      simp only [segGo, if_pos (le_refl kf.time), if_neg hspan]
      rw [div_self hne, applyEase_one, lerp_one]
    · have hbk : b.time < kf.time :=
        (List.pairwise_cons.mp (List.pairwise_cons.mp hp).2).1 kf hm'
      simp only [segGo, if_neg (not_le.mpr hbk)]
      exact ih b kf (List.pairwise_cons.mp hp).2 hm'

theorem segGo_last (e : Option EaseSpec) (l : List Keyframe) :
    ∀ (a : Keyframe) (loc : ℚ),
      List.Pairwise (fun x y : Keyframe => x.time < y.time) (a :: l) →
      (l.getLastD a).time ≤ loc → a.time < loc →
      lerp (segGo loc a l).1.value (segGo loc a l).2.1.value
          (applyEase (segGo loc a l).2.2 e) = (l.getLastD a).value := by
  induction l with
  | nil =>
    intro a loc _ _ _
    simp only [segGo, List.getLastD]
    exact lerp_self _ _
  | cons b rest ih =>
    intro a loc hp hle hgt
    have hab : a.time < b.time :=
      (List.pairwise_cons.mp hp).1 b (List.mem_cons_self b rest)
    rw [List.getLastD_cons] at hle ⊢
    have hblast : b.time ≤ (rest.getLastD b).time :=
      time_le_getLastD rest b (List.pairwise_cons.mp hp).2
    by_cases hg : loc ≤ b.time
    · have hteq : loc = b.time := le_antisymm hg (le_trans hblast hle)
      have hrest : rest = [] := by
        cases rest with
        | nil => rfl
        | cons c r2 =>
          exfalso
          have hbc : b.time < c.time :=
            (List.pairwise_cons.mp (List.pairwise_cons.mp hp).2).1 c
              (List.mem_cons_self c r2)
          have hclast : c.time ≤ ((c :: r2).getLastD b).time := by
            rw [List.getLastD_cons]
            exact time_le_getLastD r2 c
              (List.pairwise_cons.mp (List.pairwise_cons.mp hp).2).2
          have : b.time < ((c :: r2).getLastD b).time :=
            lt_of_lt_of_le hbc hclast
          linarith [le_trans hle hg]
      subst hrest
      simp only [List.getLastD] at hle ⊢
      have hspan : ¬ (b.time - a.time ≤ 0) := by linarith
      have hne : b.time - a.time ≠ 0 := sub_ne_zero.mpr (ne_of_gt hab)
      simp only [segGo, if_pos hg, if_neg hspan]
      rw [hteq, div_self hne, applyEase_one, lerp_one]
    · simp only [segGo, if_neg hg]
      exact ih b loc (List.pairwise_cons.mp hp).2 hle (lt_of_not_le hg)

/-- C6: keyframe interpolation (the body of `keyframeNumber` applied to
an already-computed local time) returns the exact stored value when the
local time equals a keyframe's own time, returns the first keyframe's
value before `t₀`, and clamps to the last keyframe's value at or after
`tₙ`, for every strictly ascending keyframe list and every easing. -/
theorem keyframe_interp (kfs : List Keyframe) (e : Option EaseSpec)
    (hs : List.Pairwise (fun x y : Keyframe => x.time < y.time) kfs) :
    (∀ kf ∈ kfs, keyframeNumberAt kf.time kfs e = kf.value) ∧
    (kfs ≠ [] → ∀ loc, loc < (kfs.headD kfDefault).time →
      keyframeNumberAt loc kfs e = (kfs.headD kfDefault).value) ∧
    (kfs ≠ [] → ∀ loc, (kfs.getLastD kfDefault).time ≤ loc →
      keyframeNumberAt loc kfs e = (kfs.getLastD kfDefault).value) := by
  refine ⟨?_, ?_, ?_⟩
  · intro kf hm
    cases kfs with
    | nil => cases hm
    | cons k rest =>
      cases rest with
      | nil =>
        rcases List.mem_cons.mp hm with rfl | hm'
        · simp [keyframeNumberAt]
        · cases hm'
      | cons c r2 =>
        have hlen : ¬ ((k :: c :: r2).length = 1) := by
          simp [List.length_cons]
        simp only [keyframeNumberAt, if_neg hlen]
        rcases List.mem_cons.mp hm with rfl | hm'
        · simp only [segmentForKeyframes, if_pos (le_refl kf.time)]
          exact lerp_self _ _
        · have hk : k.time < kf.time := (List.pairwise_cons.mp hs).1 kf hm'
          simp only [segmentForKeyframes, if_neg (not_le.mpr hk)]
          exact segGo_hit e (c :: r2) k kf hs hm'
  · intro hne loc hlt
    cases kfs with
    | nil => exact absurd rfl hne
    | cons k rest =>
      simp only [List.headD_cons] at hlt ⊢
      cases rest with
      | nil => simp [keyframeNumberAt]
      | cons c r2 =>
        have hlen : ¬ ((k :: c :: r2).length = 1) := by
          simp [List.length_cons]
        simp only [keyframeNumberAt, if_neg hlen]
        simp only [segmentForKeyframes, if_pos (le_of_lt hlt)]
        exact lerp_self _ _
  · intro hne loc hle
    cases kfs with
    | nil => exact absurd rfl hne
    | cons k rest =>
      rw [List.getLastD_cons] at hle ⊢
      cases rest with
      | nil => simp [keyframeNumberAt, List.getLastD]
      | cons c r2 =>
        have hlen : ¬ ((k :: c :: r2).length = 1) := by
          simp [List.length_cons]
        have hkc : k.time < c.time :=
          (List.pairwise_cons.mp hs).1 c (List.mem_cons_self c r2)
        have hclast : c.time ≤ ((c :: r2).getLastD k).time := by
          rw [List.getLastD_cons]
          exact time_le_getLastD r2 c (List.pairwise_cons.mp hs).2
        have hkloc : k.time < loc :=
          lt_of_lt_of_le (lt_of_lt_of_le hkc hclast) hle
        simp only [keyframeNumberAt, if_neg hlen]
        simp only [segmentForKeyframes, if_neg (not_le.mpr hkloc)]
        have hgl : ((c :: r2).getLastD k) = ((c :: r2).getLastD k) := rfl
        exact segGo_last e (c :: r2) k loc hs hle hkloc

/-- Witness for `keyframe_interp` at a concrete two-keyframe list. -/
theorem keyframe_interp_witness :
    keyframeNumberAt 10 [⟨0, 1⟩, ⟨10, 5⟩] (some .easeIn) = 5 ∧
      keyframeNumberAt (-3) [⟨0, 1⟩, ⟨10, 5⟩] (some .easeIn) = 1 ∧
      keyframeNumberAt 99 [⟨0, 1⟩, ⟨10, 5⟩] (some .easeIn) = 5 := by
  have hs : List.Pairwise (fun x y : Keyframe => x.time < y.time)
      [⟨0, 1⟩, ⟨10, 5⟩] := by
    norm_num [List.pairwise_cons]
  refine ⟨?_, ?_, ?_⟩
  · have h := (keyframe_interp [⟨0, 1⟩, ⟨10, 5⟩] (some .easeIn) hs).1
      ⟨10, 5⟩ (by norm_num [List.mem_cons, Keyframe.mk.injEq])
    simpa using h
  · have h := (keyframe_interp [⟨0, 1⟩, ⟨10, 5⟩] (some .easeIn) hs).2.1
      (by exact List.cons_ne_nil _ _) (-3) (by norm_num [List.headD_cons])
    simpa using h
  · have h := (keyframe_interp [⟨0, 1⟩, ⟨10, 5⟩] (some .easeIn) hs).2.2
      (by exact List.cons_ne_nil _ _) 99
      (by norm_num [List.getLastD_cons, List.getLastD])
    simpa using h

/-- C4: for `sequence(a, b)`: (i) at construction `b`'s offset equals
the estimated duration of `a` (the cumulative sum over earlier items);
(ii) at every evaluation time `t < offset(b)` the sequence output
contains no instance contributed by `b` (it equals `a`'s contribution
alone); (iii) at every `t ≥ offset(b)`, `b` is evaluated with local
time `t - offset(b)`.  `ev`/`dur` abstract the leaf `evaluate` /
`estimateDuration` functions that live in the absent
src/dsl/Shape.ts. -/
theorem sequence_offset_eval {α β : Type} (ev : α → ℚ → List β)
    (dur : α → ℚ) (a b : ShapeLike α) (t : ℚ) :
    (seqEntries dur [a, b] 0 = [(0, a), (durationOfItem dur a, b)]) ∧
    (t < durationOfItem dur a →
      seqEvaluate ev dur [a, b] t =
        (if t < 0 then [] else flattenItems ev [a] (t - 0) 0)) ∧
    (durationOfItem dur a ≤ t → 0 ≤ durationOfItem dur a →
      seqEvaluate ev dur [a, b] t =
        flattenItems ev [a] (t - 0) 0 ++
          flattenItems ev [b] (t - durationOfItem dur a)
            (durationOfItem dur a)) := by
  refine ⟨?_, ?_, ?_⟩
  · simp [seqEntries]
  · intro hlt
    simp [seqEvaluate, seqEntries, hlt]
  · intro hge hnn
    have h1 : ¬ t < 0 := not_lt.mpr (le_trans hnn hge)
    have h2 : ¬ t < durationOfItem dur a := not_lt.mpr hge
    simp [seqEvaluate, seqEntries, h1, h2]

/-- Witness for `sequence_offset_eval` on a concrete two-leaf sequence
with leaf duration 5 and a leaf evaluator returning its own (builder,
local time) pair. -/
theorem sequence_offset_eval_witness :
    seqEvaluate (fun (b : ℚ) (time : ℚ) => [(b, time)]) (fun _ => (5 : ℚ))
        [ShapeLike.leaf (1 : ℚ), ShapeLike.leaf (2 : ℚ)] 3 = [(1, 3)] ∧
      seqEvaluate (fun (b : ℚ) (time : ℚ) => [(b, time)]) (fun _ => (5 : ℚ))
        [ShapeLike.leaf (1 : ℚ), ShapeLike.leaf (2 : ℚ)] 7 =
          [(1, 7), (2, 2)] := by
  constructor
  · have h := (sequence_offset_eval (fun (b : ℚ) (time : ℚ) => [(b, time)])
      (fun _ => (5 : ℚ)) (ShapeLike.leaf 1) (ShapeLike.leaf 2) 3).2.1
      (by norm_num [durationOfItem])
    rw [h]
    norm_num [flattenItems, flattenOne]
  · have h := (sequence_offset_eval (fun (b : ℚ) (time : ℚ) => [(b, time)])
      (fun _ => (5 : ℚ)) (ShapeLike.leaf 1) (ShapeLike.leaf 2) 7).2.2
      (by norm_num [durationOfItem]) (by norm_num [durationOfItem])
    rw [h]
    norm_num [flattenItems, flattenOne, durationOfItem]

theorem parseOffset_eq (base : ℚ) (offset : List Char) :
    parseOffset base offset =
      if matchesSignedNumeral offset then base + signedNumeralVal offset
      else base := by
  cases offset with
  | nil => simp [parseOffset, matchesSignedNumeral]
  | cons c rest => simp [parseOffset]

/-- C8: for a string reference whose whitespace-stripped form has
prefix `scene` or `prev.end`, a suffix matching the signed-numeral
grammar `^[+-]\d+(\.\d+)?$` is added to the base (0 for scene, the
supplied `prevEnd` for prev.end) and any other suffix, empty or
malformed, leaves the base unmodified; `resolveStart` is total, so no
error is raised. -/
theorem resolveStart_suffix (s0 : List Char) (prevEnd : ℚ)
    (suffix : List Char) :
    (stripWs s0 = sceneKey ++ suffix →
      resolveStart (some (.str s0)) prevEnd =
        (if matchesSignedNumeral suffix then 0 + signedNumeralVal suffix
         else 0)) ∧
    (stripWs s0 = prevEndKey ++ suffix →
      resolveStart (some (.str s0)) prevEnd =
        (if matchesSignedNumeral suffix then prevEnd + signedNumeralVal suffix
         else prevEnd)) := by
  constructor
  · intro h
    have hpre : List.isPrefixOf sceneKey (sceneKey ++ suffix) = true := by
      rw [ List.isPrefixOf_iff_prefix]
      exact List.prefix_append sceneKey suffix
    simp only [resolveStart, h, hpre, if_true, List.drop_left]
    exact parseOffset_eq 0 suffix
  · intro h
    have hpre1 : List.isPrefixOf sceneKey (prevEndKey ++ suffix) = false := by
      simp [sceneKey, prevEndKey, List.isPrefixOf]
    have hpre2 : List.isPrefixOf prevEndKey (prevEndKey ++ suffix) = true := by
      rw [ List.isPrefixOf_iff_prefix]
      exact List.prefix_append prevEndKey suffix
    simp only [resolveStart, h, hpre1, hpre2, if_true, Bool.false_eq_true,
      if_false, List.drop_left]
    exact parseOffset_eq prevEnd suffix

/-- Witness for `resolveStart_suffix`: a well-formed suffix is added to
the base, a malformed one is ignored. -/
theorem resolveStart_suffix_witness :
    resolveStart (some (.str (" scene +200".toList))) 7 = 200 ∧
      resolveStart (some (.str ("prev.end*3".toList))) 7 = 7 := by
  constructor
  · have h := (resolveStart_suffix (" scene +200".toList) 7 ("+200".toList)).1
      (by rfl)
    have hl : ("+200".toList) = '+' :: '2' :: '0' :: '0' :: [] := rfl
    rw [h, hl]
    have hm : matchesSignedNumeral ('+' :: '2' :: '0' :: '0' :: []) = true := rfl
    rw [if_pos hm]
    have h2 : ('2'.toNat) = 50 := rfl
    have h0 : ('0'.toNat) = 48 := rfl
    have ht : List.takeWhile Char.isDigit ['2', '0', '0'] = ['2', '0', '0'] := rfl
    have hd : List.dropWhile Char.isDigit ['2', '0', '0'] = [] := rfl
    simp only [signedNumeralVal, ht, hd]
    norm_num [digitsVal, h2, h0]
    decide
  · have h := (resolveStart_suffix ("prev.end*3".toList) 7 ("*3".toList)).2
      (by rfl)
    have hm : matchesSignedNumeral ("*3".toList) = false := rfl
    rw [h, hm]
    simp

/-- C10: a string reference starting (after whitespace stripping) with
neither `scene` nor `prev.end` resolves to 0 for every supplied
`prevEnd`: the fallback base is always the scene origin, never the
previous item's end. -/
theorem resolveStart_fallback (s0 : List Char) (prevEnd : ℚ)
    (h1 : List.isPrefixOf sceneKey (stripWs s0) = false)
    (h2 : List.isPrefixOf prevEndKey (stripWs s0) = false) :
    resolveStart (some (.str s0)) prevEnd = 0 := by
  simp only [resolveStart, h1, h2, Bool.false_eq_true, if_false]

/-- Witness for `resolveStart_fallback` at a concrete unrecognized
reference and a nonzero `prevEnd`. -/
theorem resolveStart_fallback_witness :
    resolveStart (some (.str ("later".toList))) 42 = 0 :=
  resolveStart_fallback ("later".toList) 42 (by rfl) (by rfl)

/-- C2 (code bug): `"rgb(10, 20, 30)"` matches the spec's accepted rgb
text form, yet `parseColor` rejects it — the source's regex literal is
double-escaped — so `lerpColor` over two such strings falls back to the
`from` string instead of interpolating channels. -/
theorem parseColor_rgb_text_bug :
    specColorForm ("rgb(10, 20, 30)".toList) = true ∧
      parseColor ("rgb(10, 20, 30)".toList) = none ∧
      lerpColor ("rgb(10, 20, 30)".toList) ("rgb(30, 20, 10)".toList) (1/2)
        = "rgb(10, 20, 30)".toList := by
  refine ⟨rfl, rfl, rfl⟩

/-- C9 counterexample: `"#zzz"` matches none of the spec's accepted
color forms, yet `parseColor` accepts it with NaN channels (JS
`parseInt('zz', 16)` is NaN), so `lerpColor` emits
`"rgb(NaN, NaN, NaN)"` instead of returning the `from` string. -/
theorem lerpColor_unparseable_counterexample :
    specColorForm ("#zzz".toList) = false ∧
      lerpColor ("#zzz".toList) ("black".toList) (1/2)
        = "rgb(NaN, NaN, NaN)".toList ∧
      lerpColor ("#zzz".toList) ("black".toList) (1/2) ≠ "#zzz".toList := by
  refine ⟨rfl, rfl, by decide⟩

/-- C9 (amended): whenever `parseColor` rejects either endpoint
(returns null), `lerpColor` returns the `from` string unchanged for
every `t`, and it is a total function (never throws).  Hex-shaped
strings with non-hex digits are excluded: `parseColor` accepts those
with NaN channels and `lerpColor` emits `"rgb(NaN, NaN, NaN)"`. -/
theorem lerpColor_fallback (a b : List Char) (t : ℚ)
    (h : parseColor a = none ∨ parseColor b = none) :
    lerpColor a b t = a := by
  rcases h with h | h
  · simp [lerpColor, h]
  · cases hpa : parseColor a <;> simp [lerpColor, hpa, h]

/-- Witness for `lerpColor_fallback` on a concrete unparseable `from`
string. -/
theorem lerpColor_fallback_witness :
    lerpColor ("nope".toList) ("black".toList) (1/2) = "nope".toList :=
  lerpColor_fallback ("nope".toList) ("black".toList) (1/2) (Or.inl rfl)

/-- C3 (modelled from the spec, §4.6 and the distort test fixture):
`Rect(100,50).distort({tl:{x:-10,y:0}, tr:{x:10,y:0}}).evaluate(0)`
yields exactly one `path` instance, closed, with exactly the four
displaced corners — point 0 is `{x:-60,y:-25}` and point 1 is
`{x:60,y:-25}` (exact corner pinning). -/
theorem rect_distort_eval :
    rectDistortEvaluate 100 50 ⟨-10, 0⟩ ⟨10, 0⟩ ⟨0, 0⟩ ⟨0, 0⟩ 0 =
      [⟨"path".toList, [⟨-60, -25⟩, ⟨60, -25⟩, ⟨50, 25⟩, ⟨-50, 25⟩], true⟩] := by
  norm_num [rectDistortEvaluate, distortPoints, distortPoint, rectCorners,
    minXOf, maxXOf, minYOf, maxYOf, min_def, max_def]
